import Mathlib

/-!
Verification of the `httpclient` Go library against its specification.

The development shallowly embeds the library's request pipeline
(`Client.do` in the source, called `Client.doOnce` here since `do` is a
Lean keyword), the retry wrapper `Client.Do`, the request-option
combinators, the JSON/XML content wrappers, and — for the slice-aliasing
claim — a small model of Go slice/append semantics with explicit backing
arrays.

External collaborators (the HTTP transport, `http.NewRequest`, the gzip
decompressor, and the JSON/XML codecs) are modelled as parameters
(`World`, `Codec`): the library only observes them at their interface,
exactly as the spec's "OUT OF SCOPE" section prescribes.  Byte strings
are `List Nat`; Go `string` and `[]byte` are both byte strings, so the
pipeline's result type is `ByteStr`.  The opaque `context.Context`
values threaded through request options are modelled as `Nat`.
-/

set_option autoImplicit false

deriving instance DecidableEq for Except

namespace Httpclient

/-- Go byte strings (`string` / `[]byte` both are byte sequences). -/
abbrev ByteStr := List Nat

/-- Opaque `context.Context` values; options may replace them. -/
abbrev Ctx := Nat

/-- `HTTPError` from `error.go`: status code plus status text of a
non-2xx response. -/
structure HTTPError where
  StatusCode : Nat
  StatusText : String
deriving Repr, DecidableEq

/-- Go `error` values observed by the library: either an `*HTTPError`
or some other error (transport, gzip, codec, option failure), which the
library never inspects beyond non-nilness. -/
inductive GoError where
  | http (e : HTTPError)
  | other (msg : String)
deriving Repr, DecidableEq

/-- `url.Values`: a map from key to ordered value list, represented as
an association list with distinct keys (the Go map invariant). -/
abbrev Values := List (String × List String)

/-- All values stored under key `k` (concatenated in entry order; with
the distinct-key invariant this is the map lookup, defaulting to `[]`). -/
def Values.get : Values → String → List String
  | [], _ => []
  | p :: rest, k => (if p.1 = k then p.2 else []) ++ Values.get rest k

/-- `url.Values.Add`: append one value under `k`, creating the entry if
absent (mirrors `v[key] = append(v[key], value)` on a Go map). -/
def Values.add : Values → String → String → Values
  | [], k, v => [(k, [v])]
  | p :: rest, k, v =>
    if p.1 = k then (p.1, p.2 ++ [v]) :: rest
    else p :: Values.add rest k v

/-- Insert an entry into a key-sorted association list. -/
def insertByKey (p : String × List String) : Values → Values
  | [] => [p]
  | q :: rest => if p.1 ≤ q.1 then p :: q :: rest else q :: insertByKey p rest

/-- Sort entries by key (`url.Values.Encode` emits keys in sorted
order; per-key value order is preserved). -/
def Values.sortByKey (vs : Values) : Values :=
  vs.foldr insertByKey []

/-- `url.Values.Encode`: keys in sorted order, each value as `k=v`,
joined by `&` (percent-escaping omitted: the claims use unreserved
characters only). -/
def Values.encode (vs : Values) : String :=
  String.intercalate "&" ((Values.sortByKey vs).flatMap (fun p => p.2.map (fun v => p.1 ++ "=" ++ v)))

/-- The request URL, reduced to the parts the library touches: an
opaque base plus the parsed query (`req.URL.Query()` / `RawQuery`). -/
structure URL where
  base : String
  query : Values
deriving Repr, DecidableEq

/-- Update-or-insert for the header map (`http.Header.Set`). -/
def setAssoc : List (String × String) → String → String → List (String × String)
  | [], k, v => [(k, v)]
  | p :: rest, k, v => if p.1 = k then (k, v) :: rest else p :: setAssoc rest k v

/-- The mutable `*http.Request` descriptor: method, URL and headers
(the request body is fixed at construction and passed separately). -/
structure Request where
  method : String
  url : URL
  headers : List (String × String)
deriving Repr, DecidableEq

/-- `req.Header.Set(k, v)`. -/
def Request.setHeader (req : Request) (k v : String) : Request :=
  { req with headers := setAssoc req.headers k v }

/-- A `RequestOption` from `request_options.go`: receives the current
context and request, may replace the context, mutate the request, or
fail.  The `id` field is observation-only instrumentation so that
theorems can speak about which options ran and in what order. -/
structure RequestOption where
  id : Nat
  run : Ctx → Request → Except GoError (Ctx × Request)

/-- `SetHeader` from `request_options.go`. -/
def SetHeader (k v : String) : RequestOption :=
  ⟨0, fun ctx req => .ok (ctx, req.setHeader k v)⟩

/-- `SetTypeJSON` from `request_options.go`. -/
def SetTypeJSON : RequestOption :=
  SetHeader "Content-Type" "application/json; charset=UTF-8"

/-- `SetTypeXML` from `request_options.go`. -/
def SetTypeXML : RequestOption :=
  SetHeader "Content-Type" "application/xml; charset=UTF-8"

/-- The additive query merge performed by the body of `SetQuery`:
`q := req.URL.Query(); for k, v := range values { for _, vv := range v
{ q.Add(k, vv) } }`.  Per-key results are independent of Go's
unspecified map iteration order (`Add` only ever appends within one
key), so iterating `values` in list order is a faithful model. -/
def setQueryMerge (q : Values) (values : Values) : Values :=
  values.foldl (fun acc kv => kv.2.foldl (fun a vv => Values.add a kv.1 vv) acc) q

/-- `SetQuery` from `request_options.go`. -/
def SetQuery (values : Values) : RequestOption :=
  ⟨1, fun ctx req =>
    .ok (ctx, { req with url := { req.url with query := setQueryMerge req.url.query values } })⟩

/-- `retrier.Action` of the external retrier package. -/
inductive Action where
  | succeed
  | fail
  | retry
deriving Repr, DecidableEq

/-- `RetryClassifier.Classify`: nil error succeeds, every non-nil
error retries, regardless of kind. -/
def RetryClassifier.Classify (err : Option GoError) : Action :=
  match err with
  | none => Action.succeed
  | some _ => Action.retry

/-- A non-deterministic HTTP response as delivered by the transport:
numeric status code, full status line text (`resp.Status`), the
`Content-Encoding` header value, and the raw body bytes. -/
structure Response where
  statusCode : Nat
  status : String
  contentEncoding : String
  body : ByteStr
deriving Repr, DecidableEq

/-- One attempt's view of the external world: the outcome of
`http.NewRequest`, the transport dispatch `client.Client.Do`, and the
gzip decompressor (`gzip.NewReader` + `ReadAll`, merged: either the
fully decompressed bytes or the first error). -/
structure World where
  newReq : String → String → ByteStr → Except GoError Request
  transport : Request → Except GoError Response
  gunzip : ByteStr → Except GoError ByteStr

/-- Observable side effects of one physical attempt, in program order:
which options ran (by id), whether the transport was dispatched,
whether the response body was read/decoded, and each diagnostic log
record emitted (`logger.Error` / `logger.Debug("request success")`). -/
inductive Event where
  | optRun (id : Nat)
  | dispatch
  | bodyRead
  | logError
  | logSuccess
deriving Repr, DecidableEq

/-- Number of diagnostic log records in an event trace. -/
def logCount (evs : List Event) : Nat :=
  (evs.filter (fun e => e = Event.logError ∨ e = Event.logSuccess)).length

/-- Outcome of one physical attempt of the pipeline: the returned body
text, the returned error (exactly one of the two populated), and the
event trace. -/
structure DoResult where
  result : ByteStr
  error : Option GoError
  events : List Event
deriving Repr, DecidableEq

/-- The client handle: its default request options and its optional
retry policy (backoff schedule, as opaque durations, plus classifier).
Transport/timeout/logger configuration lives in `World` or is
diagnostic-only. -/
structure Client where
  reqOpts : List RequestOption
  retrier : Option (List Nat × (Option GoError → Action))

/-- `SetRetry`: install a retrier over the given backoff schedule with
the default classifier. -/
def Client.SetRetry (c : Client) (backoff : List Nat) : Client :=
  { c with retrier := some (backoff, RetryClassifier.Classify) }

/-- Run an option chain: thread the context and request through each
option in order, recording the ids of the options that ran; stop at
the first error. -/
def applyOpts : List RequestOption → Ctx → Request → List Nat × Except GoError (Ctx × Request)
  | [], ctx, req => ([], .ok (ctx, req))
  | o :: rest, ctx, req =>
    match o.run ctx req with
    | .error e => ([o.id], .error e)
    | .ok (ctx', req') =>
      let p := applyOpts rest ctx' req'
      (o.id :: p.1, p.2)

/-- The inner pipeline `Client.do` (renamed: `do` is a Lean keyword).
Mirrors the source step for step: build the request, apply default
options then call options, dispatch, validate the status code, decode
the body (gzip or raw), emitting exactly the log records the source
emits.  Failure paths return the empty string. -/
def Client.doOnce (c : Client) (w : World) (ctx : Ctx) (method url : String)
    (body : ByteStr) (callOpts : List RequestOption) : DoResult :=
  match w.newReq method url body with
  | .error e => ⟨[], some e, []⟩
  | .ok req =>
    match applyOpts (c.reqOpts ++ callOpts) ctx req with
    | (tr, .error e) => ⟨[], some e, tr.map Event.optRun⟩
    | (tr, .ok (_, req')) =>
      let ev := tr.map Event.optRun
      match w.transport req' with
      | .error e => ⟨[], some e, ev ++ [Event.dispatch, Event.logError]⟩
      | .ok resp =>
        if resp.statusCode < 200 ∨ 300 ≤ resp.statusCode then
          ⟨[], some (.http ⟨resp.statusCode, resp.status⟩),
            ev ++ [Event.dispatch, Event.logError]⟩
        else
          match (if resp.contentEncoding = "gzip" then w.gunzip resp.body else .ok resp.body) with
          | .error e => ⟨[], some e, ev ++ [Event.dispatch, Event.logError]⟩
          | .ok data => ⟨data, none, ev ++ [Event.dispatch, Event.bodyRead, Event.logSuccess]⟩

/-- Modelled from the spec: the retry loop of the external
`go-resiliency` retrier package (`retrier.Run`), which is not part of
this repository's sources; spec §4.2 describes it — invoke the
pipeline, classify the outcome, on `Retry` consume one backoff entry
and re-invoke, returning the last attempt's outcome once the schedule
is exhausted, and stop immediately on `Succeed`/`Fail`.  `work n` is
the outcome of the `n`-th physical attempt; the result pairs the last
attempt's outcome with the number of attempts made. -/
def retryRun (classify : Option GoError → Action) (work : Nat → DoResult) :
    Nat → Nat → DoResult × Nat
  | attempt, remaining =>
    let r := work attempt
    match classify r.error with
    | Action.succeed => (r, attempt + 1)
    | Action.fail => (r, attempt + 1)
    | Action.retry =>
      match remaining with
      | 0 => (r, attempt + 1)
      | rem + 1 => retryRun classify work (attempt + 1) rem

/-- `Client.Do`: passthrough to the pipeline when no retrier is
configured, otherwise the retry loop over per-attempt worlds (the
transport may behave differently on each physical attempt).  Returns
the last attempt's outcome and the number of pipeline invocations. -/
def Client.Do (c : Client) (worlds : Nat → World) (ctx : Ctx) (method url : String)
    (body : ByteStr) (callOpts : List RequestOption) : DoResult × Nat :=
  match c.retrier with
  | none => (c.doOnce (worlds 0) ctx method url body callOpts, 1)
  | some (backoff, classify) =>
    retryRun classify (fun n => c.doOnce (worlds n) ctx method url body callOpts) 0 backoff.length

/-! ## Content wrappers (JSON / XML) -/

/-- A request body as seen by `JSONClient.Do`'s type switch: absent
(`nil`), a Go `string`, a `json.RawMessage` (a defined byte-string
type), a `[]byte`, or any other typed value (opaque, handed to the
codec). -/
inductive JSONBody where
  | nil
  | str (s : ByteStr)
  | rawMessage (b : ByteStr)
  | bytes (b : ByteStr)
  | typed (v : Nat)

/-- A request body as seen by `XMLClient.Do`'s type switch (no
raw-message case). -/
inductive XMLBody where
  | nil
  | str (s : ByteStr)
  | bytes (b : ByteStr)
  | typed (v : Nat)

/-- An external codec (`encoding/json` / `encoding/xml`): `marshal`
serializes an opaque typed value; `unmarshal` consumes bytes and the
destination's prior contents and yields an optional error plus the
destination's final contents (partial writes on failure allowed). -/
structure Codec where
  marshal : Nat → Except GoError ByteStr
  unmarshal : ByteStr → Nat → Option GoError × Nat

/-- Observable outcome of one wrapper call: the destination's final
contents (`none` models a nil result pointer), the returned error, the
body bytes and option ids handed to the pipeline (`none` when the call
aborted before delegating), and whether the codec's unmarshal ran. -/
structure WrapResult where
  dest : Option Nat
  error : Option GoError
  sentBody : Option ByteStr
  sentOptIds : Option (List Nat)
  unmarshalRan : Bool
deriving Repr, DecidableEq

/-- The body-encoding type switch of `JSONClient.Do`. -/
def encodeJSONBody (codec : Codec) : JSONBody → Except GoError ByteStr
  | JSONBody.nil => .ok []
  | JSONBody.str s => .ok s
  | JSONBody.rawMessage b => .ok b
  | JSONBody.bytes b => .ok b
  | JSONBody.typed v => codec.marshal v

/-- The body-encoding type switch of `XMLClient.Do`. -/
def encodeXMLBody (codec : Codec) : XMLBody → Except GoError ByteStr
  | XMLBody.nil => .ok []
  | XMLBody.str s => .ok s
  | XMLBody.bytes b => .ok b
  | XMLBody.typed v => codec.marshal v

/-- The shared tail of both wrappers: prepend the content-type option,
delegate to `Client.Do`, then unmarshal into the destination when it
is non-nil and the response body is non-empty. -/
def wrapperCall (c : Client) (codec : Codec) (worlds : Nat → World) (ctx : Ctx)
    (method url : String) (bodyData : ByteStr) (ctOpt : RequestOption)
    (result : Option Nat) (callOpts : List RequestOption) : WrapResult :=
  let opts := ctOpt :: callOpts
  let ids := opts.map RequestOption.id
  let r := (Client.Do c worlds ctx method url bodyData opts).1
  match r.error with
  | some e => ⟨result, some e, some bodyData, some ids, false⟩
  | none =>
    match result with
    | none => ⟨none, none, some bodyData, some ids, false⟩
    | some d0 =>
      if r.result = [] then ⟨some d0, none, some bodyData, some ids, false⟩
      else
        let p := codec.unmarshal r.result d0
        ⟨some p.2, p.1, some bodyData, some ids, true⟩

/-- `JSONClient.Do` from `jsonclient.go`: encode the body per the type
switch (marshal failure aborts before any network call), prepend
`SetTypeJSON()`, delegate, then conditionally unmarshal. -/
def JSONClient.Do (c : Client) (codec : Codec) (worlds : Nat → World) (ctx : Ctx)
    (method url : String) (body : JSONBody) (result : Option Nat)
    (callOpts : List RequestOption) : WrapResult :=
  match encodeJSONBody codec body with
  | .error e => ⟨result, some e, none, none, false⟩
  | .ok bodyData => wrapperCall c codec worlds ctx method url bodyData SetTypeJSON result callOpts

/-- `XMLClient.Do` from `xmlclient.go`: identical shape with the XML
codec and `SetTypeXML()`. -/
def XMLClient.Do (c : Client) (codec : Codec) (worlds : Nat → World) (ctx : Ctx)
    (method url : String) (body : XMLBody) (result : Option Nat)
    (callOpts : List RequestOption) : WrapResult :=
  match encodeXMLBody codec body with
  | .error e => ⟨result, some e, none, none, false⟩
  | .ok bodyData => wrapperCall c codec worlds ctx method url bodyData SetTypeXML result callOpts

/-! ## Go slice semantics for the default-option list

`SetDefaultReqOpts` stores `reqOpts[:len(reqOpts):len(reqOpts)]` — the
variadic argument slice with its capacity clipped to its length — and
both `do` and `DownloadFile` execute `append(client.reqOpts, reqOpts...)`
on it.  Whether that append can scribble over the stored defaults is a
question about slice aliasing, so this part models Go slices explicitly:
a heap of numbered backing arrays and slice headers (array id, offset,
length, capacity).  Array elements are option ids (`Nat`). -/

/-- A Go slice header. -/
structure GoSlice where
  arr : Nat
  off : Nat
  len : Nat
  cap : Nat
deriving Repr, DecidableEq

/-- The heap: backing-array contents by id, plus the next fresh id. -/
structure Heap where
  arrays : Nat → List Nat
  next : Nat

/-- The elements a slice header denotes. -/
def readSlice (h : Heap) (s : GoSlice) : List Nat :=
  ((h.arrays s.arr).drop s.off).take s.len

/-- Overwrite list elements starting at index `i`. -/
def overwrite : List Nat → Nat → List Nat → List Nat
  | l, _, [] => l
  | l, i, x :: xs => overwrite (l.set i x) (i + 1) xs

/-- Go `append`: reuse the backing array when capacity suffices
(writing the new elements in place past the current length), otherwise
allocate a fresh backing array holding the old elements followed by
the new ones. -/
def goAppend (h : Heap) (s : GoSlice) (extra : List Nat) : Heap × GoSlice :=
  if s.len + extra.length ≤ s.cap then
    ({ h with arrays := fun a => if a = s.arr then overwrite (h.arrays s.arr) (s.off + s.len) extra
                                 else h.arrays a },
     { s with len := s.len + extra.length })
  else
    let contents := readSlice h s ++ extra
    ({ arrays := fun a => if a = h.next then contents else h.arrays a, next := h.next + 1 },
     ⟨h.next, 0, contents.length, contents.length⟩)

/-- `SetDefaultReqOpts`: the variadic parameter materializes as a fresh
slice over a fresh backing array; the stored value is that slice with
capacity clipped to its length (`reqOpts[:len:len]`). -/
def SetDefaultReqOpts (h : Heap) (opts : List Nat) : Heap × GoSlice :=
  ({ arrays := fun a => if a = h.next then opts else h.arrays a, next := h.next + 1 },
   ⟨h.next, 0, opts.length, opts.length⟩)

/-- The heap effect of the per-call line
`reqOpts = append(client.reqOpts, reqOpts...)` in `do`/`DownloadFile`
(the resulting slice is call-local and discarded). -/
def doCallAppend (h : Heap) (defaults : GoSlice) (callOpts : List Nat) : Heap :=
  (goAppend h defaults callOpts).1

/-! ## Concrete fixtures used by witnesses and counterexamples -/

/-- A minimal parsed request. -/
def reqA : Request := ⟨"GET", ⟨"http://h", []⟩, []⟩

/-- A client with no default options and no retrier. -/
def cEmpty : Client := ⟨[], none⟩

/-- A world whose transport always fails at the network level. -/
def wConnRefused : World :=
  ⟨fun _ _ _ => .ok reqA, fun _ => .error (.other "connection refused"), fun b => .ok b⟩

/-- A world whose transport always answers 404. -/
def w404 : World :=
  ⟨fun _ _ _ => .ok reqA, fun _ => .ok ⟨404, "404 Not Found", "", [110, 111]⟩, fun b => .ok b⟩

/-! ## Lemmas about the option chain -/

theorem applyOpts_cons (o : RequestOption) (rest : List RequestOption) (ctx : Ctx)
    (req : Request) :
    applyOpts (o :: rest) ctx req =
      match o.run ctx req with
      | .error e => ([o.id], .error e)
      | .ok p => (o.id :: (applyOpts rest p.1 p.2).1, (applyOpts rest p.1 p.2).2) := by
  cases h : o.run ctx req <;> simp [applyOpts, h]

theorem applyOpts_append_ok (pre : List RequestOption) :
    ∀ (rest : List RequestOption) (ctx : Ctx) (req : Request) (tr : List Nat)
      (ctx' : Ctx) (req' : Request),
      applyOpts pre ctx req = (tr, .ok (ctx', req')) →
      applyOpts (pre ++ rest) ctx req =
        (tr ++ (applyOpts rest ctx' req').1, (applyOpts rest ctx' req').2) := by
  induction pre with
  | nil =>
    intro rest ctx req tr ctx' req' h
    simp only [applyOpts, Prod.mk.injEq, Except.ok.injEq] at h
    obtain ⟨h1, h2, h3⟩ := h
    subst h1 h2 h3
    simp
  | cons o pre ih =>
    intro rest ctx req tr ctx' req' h
    rw [applyOpts_cons] at h
    cases hrun : o.run ctx req with
    | error e => rw [hrun] at h; simp at h
    | ok p =>
      rw [hrun] at h
      simp only [Prod.mk.injEq] at h
      obtain ⟨h1, h2⟩ := h
      cases hmid : applyOpts pre p.1 p.2 with
      | mk trm out =>
        rw [hmid] at h1 h2
        simp only at h1 h2
        subst h2
        rw [List.cons_append, applyOpts_cons, hrun]
        simp only
        rw [ih rest p.1 p.2 trm ctx' req' hmid]
        simp [← h1]

theorem applyOpts_append_error (pre : List RequestOption) :
    ∀ (rest : List RequestOption) (ctx : Ctx) (req : Request) (tr : List Nat) (e : GoError),
      applyOpts pre ctx req = (tr, .error e) →
      applyOpts (pre ++ rest) ctx req = (tr, .error e) := by
  induction pre with
  | nil =>
    intro rest ctx req tr e h
    simp [applyOpts] at h
  | cons o pre ih =>
    intro rest ctx req tr e h
    rw [applyOpts_cons] at h
    cases hrun : o.run ctx req with
    | error e' =>
      rw [hrun] at h
      simp only [Prod.mk.injEq, Except.error.injEq] at h
      obtain ⟨h1, h2⟩ := h
      subst h2
      rw [List.cons_append, applyOpts_cons, hrun]
      simp [← h1]
    | ok p =>
      rw [hrun] at h
      simp only [Prod.mk.injEq] at h
      obtain ⟨h1, h2⟩ := h
      cases hmid : applyOpts pre p.1 p.2 with
      | mk trm out =>
        rw [hmid] at h1 h2
        simp only at h1 h2
        subst h2
        rw [List.cons_append, applyOpts_cons, hrun]
        simp only
        rw [ih rest p.1 p.2 trm e hmid]
        simp [← h1]

/-! ## C5: the default retry classifier -/

/-- C5: `DefaultRetryClassifier.Classify` returns `Succeed` exactly on
a nil error, `Retry` on every non-nil error regardless of kind, and
never returns `Fail`. -/
theorem classify_default (e : Option GoError) :
    (RetryClassifier.Classify e = Action.succeed ↔ e = none) ∧
    (e ≠ none → RetryClassifier.Classify e = Action.retry) ∧
    RetryClassifier.Classify e ≠ Action.fail := by
  cases e <;> simp [RetryClassifier.Classify]

/-- Witness for C5 at a concrete non-nil error (an `HTTPError`). -/
theorem classify_default_witness :
    RetryClassifier.Classify (some (GoError.http ⟨404, "404 Not Found"⟩)) = Action.retry :=
  (classify_default (some (GoError.http ⟨404, "404 Not Found"⟩))).2.1 (by simp)

/-! ## C2: retry exhaustion -/

theorem retryRun_all_retry (classify : Option GoError → Action) (work : Nat → DoResult)
    (h : ∀ n, classify (work n).error = Action.retry) :
    ∀ (remaining attempt : Nat),
      retryRun classify work attempt remaining = (work (attempt + remaining), attempt + remaining + 1) := by
  intro remaining
  induction remaining with
  | zero => intro attempt; simp [retryRun, h attempt]
  | succ rem ih =>
    intro attempt
    simp only [retryRun, h attempt]
    rw [ih (attempt + 1)]
    congr 2 <;> omega

/-- C2: with a retrier installed by `SetRetry` over a backoff schedule
of length `N` and every physical attempt failing (so the default
classifier answers `Retry` each time), `Client.Do` invokes the inner
pipeline exactly `N + 1` times and returns the last attempt's outcome
(in particular its error). -/
theorem Do_retry_exhausts (c : Client) (backoff : List Nat) (worlds : Nat → World)
    (ctx : Ctx) (m u : String) (b : ByteStr) (callOpts : List RequestOption)
    (h : ∀ n, ((c.SetRetry backoff).doOnce (worlds n) ctx m u b callOpts).error ≠ none) :
    (c.SetRetry backoff).Do worlds ctx m u b callOpts =
      ((c.SetRetry backoff).doOnce (worlds backoff.length) ctx m u b callOpts,
        backoff.length + 1) := by
  show retryRun _ _ 0 backoff.length = _
  rw [retryRun_all_retry]
  · simp
  · intro n
    cases he : ((c.SetRetry backoff).doOnce (worlds n) ctx m u b callOpts).error with
    | none => exact absurd he (h n)
    | some e => simp [RetryClassifier.Classify]

/-- Witness for C2: two backoff entries, a transport that always
refuses the connection — three pipeline invocations, the third
attempt's error returned. -/
theorem Do_retry_exhausts_witness :
    (cEmpty.SetRetry [7, 7]).Do (fun _ => wConnRefused) 0 "GET" "http://h" [] [] =
      ((cEmpty.SetRetry [7, 7]).doOnce ((fun _ => wConnRefused) 2) 0 "GET" "http://h" [] [], 3) ∧
    ((cEmpty.SetRetry [7, 7]).doOnce ((fun _ => wConnRefused) 2) 0 "GET" "http://h" [] []).error =
      some (GoError.other "connection refused") := by
  constructor
  · exact Do_retry_exhausts cEmpty [7, 7] (fun _ => wConnRefused) 0 "GET" "http://h" [] []
      (fun _ =>
        (by decide :
          ((cEmpty.SetRetry [7, 7]).doOnce wConnRefused 0 "GET" "http://h" [] []).error ≠ none))
  · decide

/-! ## Unfolding lemmas for the pipeline -/

theorem doOnce_newReq_error (c : Client) (w : World) (ctx : Ctx) (m u : String)
    (b : ByteStr) (callOpts : List RequestOption) (e : GoError)
    (hnew : w.newReq m u b = .error e) :
    c.doOnce w ctx m u b callOpts = ⟨[], some e, []⟩ := by
  simp [Client.doOnce, hnew]

theorem doOnce_opts_error (c : Client) (w : World) (ctx : Ctx) (m u : String)
    (b : ByteStr) (callOpts : List RequestOption) (req : Request) (tr : List Nat) (e : GoError)
    (hnew : w.newReq m u b = .ok req)
    (happ : applyOpts (c.reqOpts ++ callOpts) ctx req = (tr, .error e)) :
    c.doOnce w ctx m u b callOpts = ⟨[], some e, tr.map Event.optRun⟩ := by
  simp [Client.doOnce, hnew, happ]

theorem doOnce_opts_ok (c : Client) (w : World) (ctx : Ctx) (m u : String)
    (b : ByteStr) (callOpts : List RequestOption) (req : Request) (tr : List Nat)
    (ctx' : Ctx) (req' : Request)
    (hnew : w.newReq m u b = .ok req)
    (happ : applyOpts (c.reqOpts ++ callOpts) ctx req = (tr, .ok (ctx', req'))) :
    c.doOnce w ctx m u b callOpts =
      (match w.transport req' with
       | .error e => ⟨[], some e, tr.map Event.optRun ++ [Event.dispatch, Event.logError]⟩
       | .ok resp =>
         if resp.statusCode < 200 ∨ 300 ≤ resp.statusCode then
           ⟨[], some (.http ⟨resp.statusCode, resp.status⟩),
             tr.map Event.optRun ++ [Event.dispatch, Event.logError]⟩
         else
           match (if resp.contentEncoding = "gzip" then w.gunzip resp.body else .ok resp.body) with
           | .error e => ⟨[], some e, tr.map Event.optRun ++ [Event.dispatch, Event.logError]⟩
           | .ok data =>
             ⟨data, none, tr.map Event.optRun ++ [Event.dispatch, Event.bodyRead, Event.logSuccess]⟩) := by
  simp [Client.doOnce, hnew, happ]

theorem doOnce_transport_error (c : Client) (w : World) (ctx : Ctx) (m u : String)
    (b : ByteStr) (callOpts : List RequestOption) (req : Request) (tr : List Nat)
    (ctx' : Ctx) (req' : Request) (e : GoError)
    (hnew : w.newReq m u b = .ok req)
    (happ : applyOpts (c.reqOpts ++ callOpts) ctx req = (tr, .ok (ctx', req')))
    (hdt : w.transport req' = .error e) :
    c.doOnce w ctx m u b callOpts =
      ⟨[], some e, tr.map Event.optRun ++ [Event.dispatch, Event.logError]⟩ := by
  rw [doOnce_opts_ok c w ctx m u b callOpts req tr ctx' req' hnew happ]
  simp only [hdt]

theorem doOnce_bad_status (c : Client) (w : World) (ctx : Ctx) (m u : String)
    (b : ByteStr) (callOpts : List RequestOption) (req : Request) (tr : List Nat)
    (ctx' : Ctx) (req' : Request) (resp : Response)
    (hnew : w.newReq m u b = .ok req)
    (happ : applyOpts (c.reqOpts ++ callOpts) ctx req = (tr, .ok (ctx', req')))
    (hdt : w.transport req' = .ok resp)
    (hbad : resp.statusCode < 200 ∨ 300 ≤ resp.statusCode) :
    c.doOnce w ctx m u b callOpts =
      ⟨[], some (GoError.http ⟨resp.statusCode, resp.status⟩),
        tr.map Event.optRun ++ [Event.dispatch, Event.logError]⟩ := by
  rw [doOnce_opts_ok c w ctx m u b callOpts req tr ctx' req' hnew happ]
  simp only [hdt]
  rw [if_pos hbad]

theorem doOnce_decode_error (c : Client) (w : World) (ctx : Ctx) (m u : String)
    (b : ByteStr) (callOpts : List RequestOption) (req : Request) (tr : List Nat)
    (ctx' : Ctx) (req' : Request) (resp : Response) (e : GoError)
    (hnew : w.newReq m u b = .ok req)
    (happ : applyOpts (c.reqOpts ++ callOpts) ctx req = (tr, .ok (ctx', req')))
    (hdt : w.transport req' = .ok resp)
    (hgood : ¬(resp.statusCode < 200 ∨ 300 ≤ resp.statusCode))
    (hdec : (if resp.contentEncoding = "gzip" then w.gunzip resp.body else .ok resp.body) = .error e) :
    c.doOnce w ctx m u b callOpts =
      ⟨[], some e, tr.map Event.optRun ++ [Event.dispatch, Event.logError]⟩ := by
  rw [doOnce_opts_ok c w ctx m u b callOpts req tr ctx' req' hnew happ]
  simp only [hdt]
  rw [if_neg hgood]
  simp only [hdec]

theorem doOnce_decode_ok (c : Client) (w : World) (ctx : Ctx) (m u : String)
    (b : ByteStr) (callOpts : List RequestOption) (req : Request) (tr : List Nat)
    (ctx' : Ctx) (req' : Request) (resp : Response) (data : ByteStr)
    (hnew : w.newReq m u b = .ok req)
    (happ : applyOpts (c.reqOpts ++ callOpts) ctx req = (tr, .ok (ctx', req')))
    (hdt : w.transport req' = .ok resp)
    (hgood : ¬(resp.statusCode < 200 ∨ 300 ≤ resp.statusCode))
    (hdec : (if resp.contentEncoding = "gzip" then w.gunzip resp.body else .ok resp.body) = .ok data) :
    c.doOnce w ctx m u b callOpts =
      ⟨data, none, tr.map Event.optRun ++ [Event.dispatch, Event.bodyRead, Event.logSuccess]⟩ := by
  rw [doOnce_opts_ok c w ctx m u b callOpts req tr ctx' req' hnew happ]
  simp only [hdt]
  rw [if_neg hgood]
  simp only [hdec]

/-! ## C1: status-code classification -/

/-- C1 (amended): for every response delivered by the transport, if the
status code is in `[200, 300)` and the body decode succeeds (gzip
decompression included, when `Content-Encoding` is `gzip`), `do`
returns the decoded body with a nil error; if the status code is
outside `[200, 300)`, `do` returns the empty string and an `HTTPError`
carrying exactly that status code and the response's status text, and
the body is never read or decoded (no `bodyRead` event occurs). -/
theorem doOnce_status_classification (c : Client) (w : World) (ctx : Ctx) (m u : String)
    (b : ByteStr) (callOpts : List RequestOption) (req : Request) (tr : List Nat)
    (ctx' : Ctx) (req' : Request) (resp : Response)
    (hnew : w.newReq m u b = .ok req)
    (happ : applyOpts (c.reqOpts ++ callOpts) ctx req = (tr, .ok (ctx', req')))
    (hdisp : w.transport req' = .ok resp) :
    (∀ data, 200 ≤ resp.statusCode → resp.statusCode < 300 →
      (if resp.contentEncoding = "gzip" then w.gunzip resp.body else .ok resp.body) = .ok data →
      c.doOnce w ctx m u b callOpts =
        ⟨data, none, tr.map Event.optRun ++ [Event.dispatch, Event.bodyRead, Event.logSuccess]⟩) ∧
    (resp.statusCode < 200 ∨ 300 ≤ resp.statusCode →
      c.doOnce w ctx m u b callOpts =
        ⟨[], some (GoError.http ⟨resp.statusCode, resp.status⟩),
          tr.map Event.optRun ++ [Event.dispatch, Event.logError]⟩ ∧
      Event.bodyRead ∉ (c.doOnce w ctx m u b callOpts).events) := by
  constructor
  · intro data hlo hhi hdec
    exact doOnce_decode_ok c w ctx m u b callOpts req tr ctx' req' resp data hnew happ hdisp
      (by omega) hdec
  · intro hbad
    rw [doOnce_bad_status c w ctx m u b callOpts req tr ctx' req' resp hnew happ hdisp hbad]
    refine ⟨rfl, ?_⟩
    simp [List.mem_append, List.mem_map]

/-- Witness for C1 at a concrete 404 response. -/
theorem doOnce_status_classification_witness :
    cEmpty.doOnce w404 0 "GET" "http://h" [] [] =
      ⟨[], some (GoError.http ⟨404, "404 Not Found"⟩), [Event.dispatch, Event.logError]⟩ := by
  have h := doOnce_status_classification cEmpty w404 0 "GET" "http://h" [] [] reqA [] 0 reqA
    ⟨404, "404 Not Found", "", [110, 111]⟩ rfl rfl rfl
  exact (h.2 (by decide)).1

/-- A world serving HTTP 200 with `Content-Encoding: gzip` but a body
the gzip decompressor rejects. -/
def wGzipBad : World :=
  ⟨fun _ _ _ => .ok reqA, fun _ => .ok ⟨200, "200 OK", "gzip", [31, 139]⟩,
   fun _ => .error (.other "gzip: invalid header")⟩

/-- Counterexample to C1 as stated: a response with status code 200
(in `[200, 300)`) on which `do` nevertheless returns a non-nil error,
because the body's gzip decompression fails.  The claim's first half
("if `200 <= s < 300`, `Client.do` proceeds to return the decoded body
text with a nil error") is therefore false without a proviso that the
body decode succeeds. -/
theorem doOnce_status_counterexample :
    wGzipBad.transport reqA = .ok ⟨200, "200 OK", "gzip", [31, 139]⟩ ∧
    (cEmpty.doOnce wGzipBad 0 "GET" "http://h" [] []).error =
      some (GoError.other "gzip: invalid header") := by decide

/-! ## C4: content-encoding handling -/

/-- C4: for every successful (2xx) response, if `Content-Encoding`
equals `"gzip"` the returned text is the gzip-decompressed body bytes,
and for any other `Content-Encoding` value (absent included) the
returned text is the raw body bytes unchanged.  The dispatched request
`req'` — and hence whether it declared any `Accept-Encoding` header —
is universally quantified and never constrained. -/
theorem doOnce_content_encoding (c : Client) (w : World) (ctx : Ctx) (m u : String)
    (b : ByteStr) (callOpts : List RequestOption) (req : Request) (tr : List Nat)
    (ctx' : Ctx) (req' : Request) (resp : Response)
    (hnew : w.newReq m u b = .ok req)
    (happ : applyOpts (c.reqOpts ++ callOpts) ctx req = (tr, .ok (ctx', req')))
    (hdisp : w.transport req' = .ok resp)
    (hlo : 200 ≤ resp.statusCode) (hhi : resp.statusCode < 300) :
    (resp.contentEncoding = "gzip" →
      ∀ d, w.gunzip resp.body = .ok d →
        (c.doOnce w ctx m u b callOpts).result = d ∧
        (c.doOnce w ctx m u b callOpts).error = none) ∧
    (resp.contentEncoding ≠ "gzip" →
      (c.doOnce w ctx m u b callOpts).result = resp.body ∧
      (c.doOnce w ctx m u b callOpts).error = none) := by
  constructor
  · intro hgz d hdec
    rw [doOnce_decode_ok c w ctx m u b callOpts req tr ctx' req' resp d hnew happ hdisp
      (by omega) (by rw [if_pos hgz]; exact hdec)]
    exact ⟨rfl, rfl⟩
  · intro hgz
    rw [doOnce_decode_ok c w ctx m u b callOpts req tr ctx' req' resp resp.body hnew happ hdisp
      (by omega) (by rw [if_neg hgz])]
    exact ⟨rfl, rfl⟩

/-- A world serving 200 with a gzip body; the decompressor doubles the
bytes (a stand-in for real decompression). -/
def wGzipOK : World :=
  ⟨fun _ _ _ => .ok reqA, fun _ => .ok ⟨200, "200 OK", "gzip", [1, 2, 3]⟩,
   fun bs => .ok (bs ++ bs)⟩

/-- Witness for C4: the gzip branch at a concrete response. -/
theorem doOnce_content_encoding_witness :
    (cEmpty.doOnce wGzipOK 0 "GET" "http://h" [] []).result = [1, 2, 3, 1, 2, 3] ∧
    (cEmpty.doOnce wGzipOK 0 "GET" "http://h" [] []).error = none := by
  have h := doOnce_content_encoding cEmpty wGzipOK 0 "GET" "http://h" [] [] reqA [] 0 reqA
    ⟨200, "200 OK", "gzip", [1, 2, 3]⟩ rfl rfl rfl (by decide) (by decide)
  exact h.1 rfl [1, 2, 3, 1, 2, 3] rfl

/-! ## C3: option chain order and short-circuit -/

/-- C3: `do` applies the client's default options followed by the
call-supplied options, in concatenation order, threading the context
through the chain; if an option fails, `do` returns that error at once
— the recorded events show that exactly the preceding options and the
failing option ran, and that no dispatch (hence no transport call) and
no log record occurred — and if the whole chain succeeds, every option
ran (in order) before the single dispatch. -/
theorem doOnce_option_chain (c : Client) (w : World) (ctx : Ctx) (m u : String)
    (b : ByteStr) (callOpts : List RequestOption) (req : Request)
    (hnew : w.newReq m u b = .ok req) :
    (∀ pre o post tr ctx' req' e,
      c.reqOpts ++ callOpts = pre ++ o :: post →
      applyOpts pre ctx req = (tr, .ok (ctx', req')) →
      o.run ctx' req' = .error e →
      c.doOnce w ctx m u b callOpts = ⟨[], some e, (tr ++ [o.id]).map Event.optRun⟩) ∧
    (∀ tr ctx2 req2,
      applyOpts (c.reqOpts ++ callOpts) ctx req = (tr, .ok (ctx2, req2)) →
      ∃ tail, (c.doOnce w ctx m u b callOpts).events =
        tr.map Event.optRun ++ Event.dispatch :: tail) := by
  constructor
  · intro pre o post tr ctx' req' e hconcat happre hrun
    have hchain : applyOpts (c.reqOpts ++ callOpts) ctx req = (tr ++ [o.id], .error e) := by
      rw [hconcat]
      rw [applyOpts_append_ok pre (o :: post) ctx req tr ctx' req' happre]
      rw [applyOpts_cons, hrun]
    exact doOnce_opts_error c w ctx m u b callOpts req (tr ++ [o.id]) e hnew hchain
  · intro tr ctx2 req2 happ
    cases hdt : w.transport req2 with
    | error e =>
      rw [doOnce_transport_error c w ctx m u b callOpts req tr ctx2 req2 e hnew happ hdt]
      exact ⟨[Event.logError], by simp⟩
    | ok resp =>
      by_cases hbad : resp.statusCode < 200 ∨ 300 ≤ resp.statusCode
      · rw [doOnce_bad_status c w ctx m u b callOpts req tr ctx2 req2 resp hnew happ hdt hbad]
        exact ⟨[Event.logError], by simp⟩
      · cases hdec : (if resp.contentEncoding = "gzip" then w.gunzip resp.body else .ok resp.body) with
        | error e =>
          rw [doOnce_decode_error c w ctx m u b callOpts req tr ctx2 req2 resp e hnew happ hdt
            hbad hdec]
          exact ⟨[Event.logError], by simp⟩
        | ok data =>
          rw [doOnce_decode_ok c w ctx m u b callOpts req tr ctx2 req2 resp data hnew happ hdt
            hbad hdec]
          exact ⟨[Event.bodyRead, Event.logSuccess], by simp⟩

/-- A default option setting header `X: 1` (id 0, via `SetHeader`). -/
def optA : RequestOption := SetHeader "X" "1"

/-- An always-failing option, id 9. -/
def failOpt : RequestOption := ⟨9, fun _ _ => .error (.other "bad option")⟩

/-- A later option that must never run once `failOpt` failed. -/
def optB : RequestOption := SetHeader "Y" "2"

/-- `reqA` after `optA` ran. -/
def reqAX : Request := ⟨"GET", ⟨"http://h", []⟩, [("X", "1")]⟩

/-- Witness for C3: default list `[optA]`, call list `[failOpt, optB]`:
the default option runs first, the failing call option aborts the
chain, `optB` never runs, no dispatch and no log record occur. -/
theorem doOnce_option_chain_witness :
    (⟨[optA], none⟩ : Client).doOnce w404 0 "GET" "http://h" [] [failOpt, optB] =
      ⟨[], some (GoError.other "bad option"), [Event.optRun 0, Event.optRun 9]⟩ := by
  have h := (doOnce_option_chain ⟨[optA], none⟩ w404 0 "GET" "http://h" [] [failOpt, optB]
    reqA rfl).1 [optA] failOpt [optB] [0] 0 reqAX (GoError.other "bad option")
    rfl (by decide) rfl
  exact h

/-! ## C6: diagnostic records per attempt -/

theorem logCount_append (a b : List Event) : logCount (a ++ b) = logCount a + logCount b := by
  simp [logCount, List.filter_append]

theorem logCount_optRun (tr : List Nat) : logCount (tr.map Event.optRun) = 0 := by
  induction tr with
  | nil => rfl
  | cons x xs ih => simp [logCount, List.filter]

/-- C6 (amended): an attempt that reaches the transport dispatch emits
exactly one diagnostic record, whether it then succeeds or fails for
any reason — but an attempt aborted earlier, during request
construction or in the option chain, emits none. -/
theorem doOnce_log_records (c : Client) (w : World) (ctx : Ctx) (m u : String)
    (b : ByteStr) (callOpts : List RequestOption) :
    (∀ e, w.newReq m u b = .error e →
      logCount (c.doOnce w ctx m u b callOpts).events = 0) ∧
    (∀ req tr e, w.newReq m u b = .ok req →
      applyOpts (c.reqOpts ++ callOpts) ctx req = (tr, .error e) →
      logCount (c.doOnce w ctx m u b callOpts).events = 0) ∧
    (∀ req tr ctx' req', w.newReq m u b = .ok req →
      applyOpts (c.reqOpts ++ callOpts) ctx req = (tr, .ok (ctx', req')) →
      logCount (c.doOnce w ctx m u b callOpts).events = 1) := by
  refine ⟨?_, ?_, ?_⟩
  · intro e hnew
    rw [doOnce_newReq_error c w ctx m u b callOpts e hnew]
    rfl
  · intro req tr e hnew happ
    rw [doOnce_opts_error c w ctx m u b callOpts req tr e hnew happ]
    exact logCount_optRun tr
  · intro req tr ctx' req' hnew happ
    cases hdt : w.transport req' with
    | error e =>
      rw [doOnce_transport_error c w ctx m u b callOpts req tr ctx' req' e hnew happ hdt]
      simp [logCount_append, logCount_optRun, logCount]
    | ok resp =>
      by_cases hbad : resp.statusCode < 200 ∨ 300 ≤ resp.statusCode
      · rw [doOnce_bad_status c w ctx m u b callOpts req tr ctx' req' resp hnew happ hdt hbad]
        simp [logCount_append, logCount_optRun, logCount]
      · cases hdec : (if resp.contentEncoding = "gzip" then w.gunzip resp.body else .ok resp.body) with
        | error e =>
          rw [doOnce_decode_error c w ctx m u b callOpts req tr ctx' req' resp e hnew happ hdt
            hbad hdec]
          simp [logCount_append, logCount_optRun, logCount]
        | ok data =>
          rw [doOnce_decode_ok c w ctx m u b callOpts req tr ctx' req' resp data hnew happ hdt
            hbad hdec]
          simp [logCount_append, logCount_optRun, logCount]

/-- Counterexample to C6 as stated: a physical attempt whose option
chain fails emits zero diagnostic records, not one — in the source the
logger is only constructed after the option loop, so option-chain (and
request-construction) failures return without logging. -/
theorem doOnce_log_counterexample :
    logCount ((cEmpty.doOnce w404 0 "GET" "http://h" [] [failOpt]).events) = 0 := by decide

/-- Witness for C6: a dispatched attempt (the 404 world) logs exactly
once. -/
theorem doOnce_log_records_witness :
    logCount ((cEmpty.doOnce w404 0 "GET" "http://h" [] []).events) = 1 :=
  (doOnce_log_records cEmpty w404 0 "GET" "http://h" [] []).2.2 reqA [] 0 reqA rfl rfl

/-! ## Lemmas about the content wrappers -/

theorem wrapperCall_sentBody (c : Client) (codec : Codec) (worlds : Nat → World) (ctx : Ctx)
    (m u : String) (bodyData : ByteStr) (ctOpt : RequestOption) (result : Option Nat)
    (callOpts : List RequestOption) :
    (wrapperCall c codec worlds ctx m u bodyData ctOpt result callOpts).sentBody =
      some bodyData := by
  simp only [wrapperCall]
  split
  · rfl
  · split
    · rfl
    · split
      · rfl
      · rfl

theorem wrapperCall_sentOptIds (c : Client) (codec : Codec) (worlds : Nat → World) (ctx : Ctx)
    (m u : String) (bodyData : ByteStr) (ctOpt : RequestOption) (result : Option Nat)
    (callOpts : List RequestOption) :
    (wrapperCall c codec worlds ctx m u bodyData ctOpt result callOpts).sentOptIds =
      some ((ctOpt :: callOpts).map RequestOption.id) := by
  simp only [wrapperCall]
  split
  · rfl
  · split
    · rfl
    · split
      · rfl
      · rfl

theorem wrapperCall_unmarshal (c : Client) (codec : Codec) (worlds : Nat → World) (ctx : Ctx)
    (m u : String) (bodyData : ByteStr) (ctOpt : RequestOption) (d0 : Nat)
    (callOpts : List RequestOption)
    (herr : (Client.Do c worlds ctx m u bodyData (ctOpt :: callOpts)).1.error = none)
    (hne : (Client.Do c worlds ctx m u bodyData (ctOpt :: callOpts)).1.result ≠ []) :
    wrapperCall c codec worlds ctx m u bodyData ctOpt (some d0) callOpts =
      ⟨some (codec.unmarshal (Client.Do c worlds ctx m u bodyData (ctOpt :: callOpts)).1.result d0).2,
       (codec.unmarshal (Client.Do c worlds ctx m u bodyData (ctOpt :: callOpts)).1.result d0).1,
       some bodyData, some ((ctOpt :: callOpts).map RequestOption.id), true⟩ := by
  simp only [wrapperCall, herr]
  rw [if_neg hne]

theorem wrapperCall_frame (c : Client) (codec : Codec) (worlds : Nat → World) (ctx : Ctx)
    (m u : String) (bodyData : ByteStr) (ctOpt : RequestOption) (d0 : Nat)
    (callOpts : List RequestOption)
    (h : (Client.Do c worlds ctx m u bodyData (ctOpt :: callOpts)).1.error ≠ none ∨
         (Client.Do c worlds ctx m u bodyData (ctOpt :: callOpts)).1.result = []) :
    (wrapperCall c codec worlds ctx m u bodyData ctOpt (some d0) callOpts).dest = some d0 ∧
    (wrapperCall c codec worlds ctx m u bodyData ctOpt (some d0) callOpts).unmarshalRan = false := by
  cases herr : (Client.Do c worlds ctx m u bodyData (ctOpt :: callOpts)).1.error with
  | some e => simp [wrapperCall, herr]
  | none =>
    have hres : (Client.Do c worlds ctx m u bodyData (ctOpt :: callOpts)).1.result = [] := by
      rcases h with h | h
      · exact absurd herr h
      · exact h
    simp [wrapperCall, herr, hres]

/-! ## C7: wrapper body encoding, content-type prepending, unmarshal -/

/-- C7: for both `JSONClient.Do` and `XMLClient.Do` — a string body is
handed to the pipeline byte-for-byte and a `[]byte` body unchanged; a
typed body whose marshal fails makes the wrapper return that error
with no network call (and the destination untouched); the option list
handed to the pipeline is always the content-type option
(`application/json; charset=UTF-8` resp. `application/xml;
charset=UTF-8`) prepended ahead of every caller-supplied option; and
on a successful call with a non-nil destination and a non-empty
response body, the response text is unmarshaled into the destination,
an unmarshal failure surfacing as the returned error. -/
theorem wrappers_content_type_and_codec (c : Client) (codec : Codec) (worlds : Nat → World)
    (ctx : Ctx) (m u : String) (result : Option Nat) (callOpts : List RequestOption) :
    (∀ s, (JSONClient.Do c codec worlds ctx m u (JSONBody.str s) result callOpts).sentBody =
      some s) ∧
    (∀ bs, (JSONClient.Do c codec worlds ctx m u (JSONBody.bytes bs) result callOpts).sentBody =
      some bs) ∧
    (∀ v e, codec.marshal v = .error e →
      JSONClient.Do c codec worlds ctx m u (JSONBody.typed v) result callOpts =
        ⟨result, some e, none, none, false⟩) ∧
    (∀ body ids,
      (JSONClient.Do c codec worlds ctx m u body result callOpts).sentOptIds = some ids →
      ids = SetTypeJSON.id :: callOpts.map RequestOption.id) ∧
    (∀ body bodyData d0, encodeJSONBody codec body = .ok bodyData →
      (Client.Do c worlds ctx m u bodyData (SetTypeJSON :: callOpts)).1.error = none →
      (Client.Do c worlds ctx m u bodyData (SetTypeJSON :: callOpts)).1.result ≠ [] →
      JSONClient.Do c codec worlds ctx m u body (some d0) callOpts =
        ⟨some (codec.unmarshal
            (Client.Do c worlds ctx m u bodyData (SetTypeJSON :: callOpts)).1.result d0).2,
         (codec.unmarshal
            (Client.Do c worlds ctx m u bodyData (SetTypeJSON :: callOpts)).1.result d0).1,
         some bodyData, some ((SetTypeJSON :: callOpts).map RequestOption.id), true⟩) ∧
    (∀ s, (XMLClient.Do c codec worlds ctx m u (XMLBody.str s) result callOpts).sentBody =
      some s) ∧
    (∀ bs, (XMLClient.Do c codec worlds ctx m u (XMLBody.bytes bs) result callOpts).sentBody =
      some bs) ∧
    (∀ v e, codec.marshal v = .error e →
      XMLClient.Do c codec worlds ctx m u (XMLBody.typed v) result callOpts =
        ⟨result, some e, none, none, false⟩) ∧
    (∀ body ids,
      (XMLClient.Do c codec worlds ctx m u body result callOpts).sentOptIds = some ids →
      ids = SetTypeXML.id :: callOpts.map RequestOption.id) ∧
    (∀ body bodyData d0, encodeXMLBody codec body = .ok bodyData →
      (Client.Do c worlds ctx m u bodyData (SetTypeXML :: callOpts)).1.error = none →
      (Client.Do c worlds ctx m u bodyData (SetTypeXML :: callOpts)).1.result ≠ [] →
      XMLClient.Do c codec worlds ctx m u body (some d0) callOpts =
        ⟨some (codec.unmarshal
            (Client.Do c worlds ctx m u bodyData (SetTypeXML :: callOpts)).1.result d0).2,
         (codec.unmarshal
            (Client.Do c worlds ctx m u bodyData (SetTypeXML :: callOpts)).1.result d0).1,
         some bodyData, some ((SetTypeXML :: callOpts).map RequestOption.id), true⟩) := by
  refine ⟨?_, ?_, ?_, ?_, ?_, ?_, ?_, ?_, ?_, ?_⟩
  · intro s
    exact wrapperCall_sentBody c codec worlds ctx m u s SetTypeJSON result callOpts
  · intro bs
    exact wrapperCall_sentBody c codec worlds ctx m u bs SetTypeJSON result callOpts
  · intro v e hmar
    simp only [JSONClient.Do, encodeJSONBody, hmar]
  · intro body ids hids
    cases body with
    | typed v =>
      cases hmar : codec.marshal v with
      | error e =>
        rw [show JSONClient.Do c codec worlds ctx m u (JSONBody.typed v) result callOpts =
            ⟨result, some e, none, none, false⟩ by
          simp only [JSONClient.Do, encodeJSONBody, hmar]] at hids
        simp at hids
      | ok bd =>
        rw [show JSONClient.Do c codec worlds ctx m u (JSONBody.typed v) result callOpts =
            wrapperCall c codec worlds ctx m u bd SetTypeJSON result callOpts by
          simp only [JSONClient.Do, encodeJSONBody, hmar]] at hids
        rw [wrapperCall_sentOptIds] at hids
        simpa using hids.symm
    | nil =>
      rw [show JSONClient.Do c codec worlds ctx m u JSONBody.nil result callOpts =
          wrapperCall c codec worlds ctx m u [] SetTypeJSON result callOpts from rfl] at hids
      rw [wrapperCall_sentOptIds] at hids
      simpa using hids.symm
    | str s =>
      rw [show JSONClient.Do c codec worlds ctx m u (JSONBody.str s) result callOpts =
          wrapperCall c codec worlds ctx m u s SetTypeJSON result callOpts from rfl] at hids
      rw [wrapperCall_sentOptIds] at hids
      simpa using hids.symm
    | rawMessage b =>
      rw [show JSONClient.Do c codec worlds ctx m u (JSONBody.rawMessage b) result callOpts =
          wrapperCall c codec worlds ctx m u b SetTypeJSON result callOpts from rfl] at hids
      rw [wrapperCall_sentOptIds] at hids
      simpa using hids.symm
    | bytes b =>
      rw [show JSONClient.Do c codec worlds ctx m u (JSONBody.bytes b) result callOpts =
          wrapperCall c codec worlds ctx m u b SetTypeJSON result callOpts from rfl] at hids
      rw [wrapperCall_sentOptIds] at hids
      simpa using hids.symm
  · intro body bodyData d0 henc herr hne
    have hreduce : JSONClient.Do c codec worlds ctx m u body (some d0) callOpts =
        wrapperCall c codec worlds ctx m u bodyData SetTypeJSON (some d0) callOpts := by
      simp only [JSONClient.Do, henc]
    rw [hreduce]
    exact wrapperCall_unmarshal c codec worlds ctx m u bodyData SetTypeJSON d0 callOpts herr hne
  · intro s
    exact wrapperCall_sentBody c codec worlds ctx m u s SetTypeXML result callOpts
  · intro bs
    exact wrapperCall_sentBody c codec worlds ctx m u bs SetTypeXML result callOpts
  · intro v e hmar
    simp only [XMLClient.Do, encodeXMLBody, hmar]
  · intro body ids hids
    cases body with
    | typed v =>
      cases hmar : codec.marshal v with
      | error e =>
        rw [show XMLClient.Do c codec worlds ctx m u (XMLBody.typed v) result callOpts =
            ⟨result, some e, none, none, false⟩ by
          simp only [XMLClient.Do, encodeXMLBody, hmar]] at hids
        simp at hids
      | ok bd =>
        rw [show XMLClient.Do c codec worlds ctx m u (XMLBody.typed v) result callOpts =
            wrapperCall c codec worlds ctx m u bd SetTypeXML result callOpts by
          simp only [XMLClient.Do, encodeXMLBody, hmar]] at hids
        rw [wrapperCall_sentOptIds] at hids
        simpa using hids.symm
    | nil =>
      rw [show XMLClient.Do c codec worlds ctx m u XMLBody.nil result callOpts =
          wrapperCall c codec worlds ctx m u [] SetTypeXML result callOpts from rfl] at hids
      rw [wrapperCall_sentOptIds] at hids
      simpa using hids.symm
    | str s =>
      rw [show XMLClient.Do c codec worlds ctx m u (XMLBody.str s) result callOpts =
          wrapperCall c codec worlds ctx m u s SetTypeXML result callOpts from rfl] at hids
      rw [wrapperCall_sentOptIds] at hids
      simpa using hids.symm
    | bytes b =>
      rw [show XMLClient.Do c codec worlds ctx m u (XMLBody.bytes b) result callOpts =
          wrapperCall c codec worlds ctx m u b SetTypeXML result callOpts from rfl] at hids
      rw [wrapperCall_sentOptIds] at hids
      simpa using hids.symm
  · intro body bodyData d0 henc herr hne
    have hreduce : XMLClient.Do c codec worlds ctx m u body (some d0) callOpts =
        wrapperCall c codec worlds ctx m u bodyData SetTypeXML (some d0) callOpts := by
      simp only [XMLClient.Do, henc]
    rw [hreduce]
    exact wrapperCall_unmarshal c codec worlds ctx m u bodyData SetTypeXML d0 callOpts herr hne

/-- A codec whose marshal always fails. -/
def codecBad : Codec := ⟨fun _ => .error (.other "marshal fail"), fun bs d => (none, d + bs.length)⟩

/-- A codec that always succeeds: marshal yields a singleton, unmarshal
stores the byte count. -/
def codecOK : Codec := ⟨fun v => .ok [v], fun bs _ => (none, bs.length)⟩

/-- A world serving a plain 200 response with body bytes `{` `}`. -/
def wEcho : World :=
  ⟨fun _ _ _ => .ok reqA, fun _ => .ok ⟨200, "200 OK", "", [123, 125]⟩, fun b => .ok b⟩

/-- Witness for C7: the marshal-failure conjunct (errors out before
any network call) and the unmarshal conjunct (the 200 response's body
is decoded into the destination) at concrete inputs. -/
theorem wrappers_content_type_and_codec_witness :
    JSONClient.Do cEmpty codecBad (fun _ => w404) 0 "POST" "http://h" (JSONBody.typed 5)
      (some 3) [] = ⟨some 3, some (GoError.other "marshal fail"), none, none, false⟩ ∧
    JSONClient.Do cEmpty codecOK (fun _ => wEcho) 0 "POST" "http://h" (JSONBody.str [7])
      (some 0) [] = ⟨some 2, none, some [7], some [0], true⟩ := by
  constructor
  · exact (wrappers_content_type_and_codec cEmpty codecBad (fun _ => w404) 0 "POST" "http://h"
      (some 3) []).2.2.1 5 (GoError.other "marshal fail") rfl
  · have h := (wrappers_content_type_and_codec cEmpty codecOK (fun _ => wEcho) 0 "POST" "http://h"
      (some 0) []).2.2.2.2.1 (JSONBody.str [7]) [7] 0 rfl (by decide) (by decide)
    exact h.trans (by decide)

/-! ## C10: failures never touch the destination -/

/-- C10: for both wrappers, whenever the underlying plain-text call
returns a non-nil error or an empty response body, the caller's result
destination keeps exactly its prior value and no unmarshal is
invoked. -/
theorem wrappers_dest_frame (c : Client) (codec : Codec) (worlds : Nat → World) (ctx : Ctx)
    (m u : String) (callOpts : List RequestOption) :
    (∀ body bodyData d0, encodeJSONBody codec body = .ok bodyData →
      ((Client.Do c worlds ctx m u bodyData (SetTypeJSON :: callOpts)).1.error ≠ none ∨
       (Client.Do c worlds ctx m u bodyData (SetTypeJSON :: callOpts)).1.result = []) →
      (JSONClient.Do c codec worlds ctx m u body (some d0) callOpts).dest = some d0 ∧
      (JSONClient.Do c codec worlds ctx m u body (some d0) callOpts).unmarshalRan = false) ∧
    (∀ body bodyData d0, encodeXMLBody codec body = .ok bodyData →
      ((Client.Do c worlds ctx m u bodyData (SetTypeXML :: callOpts)).1.error ≠ none ∨
       (Client.Do c worlds ctx m u bodyData (SetTypeXML :: callOpts)).1.result = []) →
      (XMLClient.Do c codec worlds ctx m u body (some d0) callOpts).dest = some d0 ∧
      (XMLClient.Do c codec worlds ctx m u body (some d0) callOpts).unmarshalRan = false) := by
  constructor
  · intro body bodyData d0 henc h
    have hreduce : JSONClient.Do c codec worlds ctx m u body (some d0) callOpts =
        wrapperCall c codec worlds ctx m u bodyData SetTypeJSON (some d0) callOpts := by
      simp only [JSONClient.Do, henc]
    rw [hreduce]
    exact wrapperCall_frame c codec worlds ctx m u bodyData SetTypeJSON d0 callOpts h
  · intro body bodyData d0 henc h
    have hreduce : XMLClient.Do c codec worlds ctx m u body (some d0) callOpts =
        wrapperCall c codec worlds ctx m u bodyData SetTypeXML (some d0) callOpts := by
      simp only [XMLClient.Do, henc]
    rw [hreduce]
    exact wrapperCall_frame c codec worlds ctx m u bodyData SetTypeXML d0 callOpts h

/-- Witness for C10: a 404 answer leaves the destination at its prior
value `some 3` and never runs unmarshal. -/
theorem wrappers_dest_frame_witness :
    (JSONClient.Do cEmpty codecOK (fun _ => w404) 0 "POST" "http://h" (JSONBody.str [7])
      (some 3) []).dest = some 3 ∧
    (JSONClient.Do cEmpty codecOK (fun _ => w404) 0 "POST" "http://h" (JSONBody.str [7])
      (some 3) []).unmarshalRan = false :=
  (wrappers_dest_frame cEmpty codecOK (fun _ => w404) 0 "POST" "http://h" []).1
    (JSONBody.str [7]) [7] 3 rfl (Or.inl (by decide))

/-! ## C8: additive query merge -/

theorem get_nil_of_not_mem (vs : Values) (k : String) (h : k ∉ vs.map Prod.fst) :
    Values.get vs k = [] := by
  induction vs with
  | nil => rfl
  | cons p rest ih =>
    simp only [List.map_cons, List.mem_cons] at h
    push_neg at h
    simp only [Values.get]
    rw [if_neg (fun hh => h.1 hh.symm), ih h.2]
    rfl

theorem mem_keys_add (vs : Values) (k v x : String) :
    x ∈ (Values.add vs k v).map Prod.fst ↔ x ∈ vs.map Prod.fst ∨ x = k := by
  induction vs with
  | nil => simp [Values.add]
  | cons p rest ih =>
    by_cases hpk : p.1 = k
    · simp only [Values.add, if_pos hpk]
      simp only [List.map_cons, List.mem_cons]
      constructor
      · rintro (h | h)
        · exact Or.inl (Or.inl h)
        · exact Or.inl (Or.inr h)
      · rintro ((h | h) | h)
        · exact Or.inl h
        · exact Or.inr h
        · exact Or.inl (hpk ▸ h)
    · simp only [Values.add, if_neg hpk]
      simp only [List.map_cons, List.mem_cons, ih]
      tauto

theorem nodup_keys_add (vs : Values) (k v : String) (h : (vs.map Prod.fst).Nodup) :
    ((Values.add vs k v).map Prod.fst).Nodup := by
  induction vs with
  | nil => simp [Values.add]
  | cons p rest ih =>
    simp only [List.map_cons, List.nodup_cons] at h
    by_cases hpk : p.1 = k
    · simp only [Values.add, if_pos hpk, List.map_cons, List.nodup_cons]
      exact h
    · simp only [Values.add, if_neg hpk, List.map_cons, List.nodup_cons]
      refine ⟨?_, ih h.2⟩
      rw [mem_keys_add]
      rintro (hh | hh)
      · exact h.1 hh
      · exact hpk hh

theorem get_add (vs : Values) (k v k' : String) (h : (vs.map Prod.fst).Nodup) :
    Values.get (Values.add vs k v) k' =
      Values.get vs k' ++ (if k = k' then [v] else []) := by
  induction vs with
  | nil =>
    by_cases hk : k = k' <;> simp [Values.add, Values.get, hk]
  | cons p rest ih =>
    simp only [List.map_cons, List.nodup_cons] at h
    by_cases hpk : p.1 = k
    · subst hpk
      simp only [Values.add, if_pos rfl, Values.get]
      by_cases hk' : p.1 = k'
      · have hrest : Values.get rest k' = [] :=
          get_nil_of_not_mem rest k' (hk' ▸ h.1)
        simp [hk', hrest]
      · simp [hk']
    · simp only [Values.add, if_neg hpk, Values.get]
      rw [ih h.2, List.append_assoc]

theorem nodup_keys_foldl_add (k : String) (ws : List String) :
    ∀ (vs : Values), (vs.map Prod.fst).Nodup →
      ((ws.foldl (fun a vv => Values.add a k vv) vs).map Prod.fst).Nodup := by
  induction ws with
  | nil => intro vs h; exact h
  | cons w ws ih =>
    intro vs h
    simp only [List.foldl_cons]
    exact ih (Values.add vs k w) (nodup_keys_add vs k w h)

theorem get_foldl_add (k : String) (ws : List String) :
    ∀ (vs : Values) (k' : String), (vs.map Prod.fst).Nodup →
      Values.get (ws.foldl (fun a vv => Values.add a k vv) vs) k' =
        Values.get vs k' ++ (if k = k' then ws else []) := by
  induction ws with
  | nil =>
    intro vs k' _
    by_cases hk : k = k' <;> simp [hk]
  | cons w ws ih =>
    intro vs k' h
    simp only [List.foldl_cons]
    rw [ih (Values.add vs k w) k' (nodup_keys_add vs k w h), get_add vs k w k' h]
    by_cases hk : k = k'
    · rw [if_pos hk, if_pos hk, if_pos hk]; simp
    · rw [if_neg hk, if_neg hk, if_neg hk]; simp

/-- C8: the option built by `SetQuery` merges additively: each key of
the request URL's existing query keeps all its values and every
supplied value is appended after them, never replacing any (stated for
any existing query with distinct keys, the Go map invariant); and
concretely, `SetQuery({"x": ["1","2"]})` applied to a request for
`http://h/path?x=0` leaves the query with `x = [0,1,2]`, whose encoded
form is exactly `x=0&x=1&x=2` — `x=0`, `x=1`, `x=2` in that order. -/
theorem SetQuery_additive_merge :
    (∀ (q values : Values) (k : String), (q.map Prod.fst).Nodup →
      Values.get (setQueryMerge q values) k =
        Values.get q k ++ Values.get values k) ∧
    (SetQuery [("x", ["1", "2"])]).run 0 ⟨"GET", ⟨"http://h/path", [("x", ["0"])]⟩, []⟩ =
      .ok (0, ⟨"GET", ⟨"http://h/path", [("x", ["0", "1", "2"])]⟩, []⟩) ∧
    Values.encode [("x", ["0", "1", "2"])] = "x=0&x=1&x=2" := by
  refine ⟨?_, by decide, by decide⟩
  intro q values
  induction values generalizing q with
  | nil =>
    intro k h
    simp [setQueryMerge, Values.get]
  | cons kv rest ih =>
    intro k h
    simp only [setQueryMerge, List.foldl_cons] at ih ⊢
    rw [ih (kv.2.foldl (fun a vv => Values.add a kv.1 vv) q) k
      (nodup_keys_foldl_add kv.1 kv.2 q h)]
    rw [get_foldl_add kv.1 kv.2 q k h]
    simp only [Values.get]
    by_cases hk : kv.1 = k <;> simp [hk, List.append_assoc]

/-- Witness for C8's universally quantified conjunct at a concrete
query and value set. -/
theorem SetQuery_additive_merge_witness :
    Values.get (setQueryMerge [("a", ["1"])] [("a", ["2"]), ("b", ["3"])]) "a" =
      Values.get [("a", ["1"])] "a" ++ Values.get [("a", ["2"]), ("b", ["3"])] "a" :=
  SetQuery_additive_merge.1 [("a", ["1"])] [("a", ["2"]), ("b", ["3"])] "a" (by decide)

/-! ## C9: the default option list survives per-call appends -/

theorem goAppend_fresh (h : Heap) (s : GoSlice) (extra : List Nat)
    (hcap : s.cap = s.len) (hex : extra ≠ []) :
    (goAppend h s extra).2.arr = h.next := by
  have hlen : 0 < extra.length := List.length_pos.mpr hex
  have hgt : ¬(s.len + extra.length ≤ s.cap) := by omega
  simp [goAppend, hgt]

theorem goAppend_frame (h : Heap) (s : GoSlice) (extra : List Nat)
    (hcap : s.cap = s.len) (harr : s.arr < h.next) :
    (goAppend h s extra).1.arrays s.arr = h.arrays s.arr ∧
    h.next ≤ (goAppend h s extra).1.next := by
  by_cases hle : s.len + extra.length ≤ s.cap
  · have hex : extra = [] := List.length_eq_zero.mp (by omega)
    subst hex
    have hle' : s.len ≤ s.cap := by simpa using hle
    simp [goAppend, hle', overwrite]
  · have hne : s.arr ≠ h.next := Nat.ne_of_lt harr
    simp [goAppend, hle, hne]

theorem fold_doCallAppend_frame (s : GoSlice) (hcap : s.cap = s.len) :
    ∀ (calls : List (List Nat)) (h : Heap), s.arr < h.next →
      (calls.foldl (fun hh ex => doCallAppend hh s ex) h).arrays s.arr = h.arrays s.arr := by
  intro calls
  induction calls with
  | nil => intro h _; rfl
  | cons cex rest ih =>
    intro h harr
    have hframe := goAppend_frame h s cex hcap harr
    simp only [List.foldl_cons]
    rw [ih (doCallAppend h s cex) (lt_of_lt_of_le harr hframe.2)]
    exact hframe.1

/-- C9 (amended): `SetDefaultReqOpts` stores the option slice with its
capacity clipped to its length, so the per-call
`append(client.reqOpts, reqOpts...)` in `do`/`DownloadFile` allocates
a fresh backing array whenever at least one per-call option is
supplied (with none supplied, Go's append returns the stored slice
itself, writing nothing); in every case, after any number of calls
with any per-call options the stored default option list is
element-for-element unchanged. -/
theorem setDefaultReqOpts_frame :
    (∀ (h : Heap) (s : GoSlice) (extra : List Nat), s.cap = s.len → extra ≠ [] →
      (goAppend h s extra).2.arr = h.next) ∧
    (∀ (h : Heap) (opts : List Nat) (calls : List (List Nat)),
      readSlice
        (calls.foldl (fun hh ex => doCallAppend hh (SetDefaultReqOpts h opts).2 ex)
          (SetDefaultReqOpts h opts).1)
        (SetDefaultReqOpts h opts).2 = opts) := by
  constructor
  · exact goAppend_fresh
  · intro h opts calls
    have hcap : (SetDefaultReqOpts h opts).2.cap = (SetDefaultReqOpts h opts).2.len := rfl
    have harr : (SetDefaultReqOpts h opts).2.arr < (SetDefaultReqOpts h opts).1.next :=
      Nat.lt_succ_self h.next
    rw [readSlice,
      fold_doCallAppend_frame (SetDefaultReqOpts h opts).2 hcap calls
        (SetDefaultReqOpts h opts).1 harr]
    show ((if h.next = h.next then opts else h.arrays h.next).drop 0).take opts.length = opts
    rw [if_pos rfl]
    simp

/-- The empty heap. -/
def heap0 : Heap := ⟨fun _ => [], 0⟩

/-- Heap after `SetDefaultReqOpts` stored the one-option list `[5]`. -/
def heapC9 : Heap := (SetDefaultReqOpts heap0 [5]).1

/-- The stored default slice (capacity clipped to length). -/
def sliceC9 : GoSlice := (SetDefaultReqOpts heap0 [5]).2

/-- Counterexample to C9 as stated: with zero per-call options, the
append `append(client.reqOpts)` does NOT allocate a fresh backing
array — it returns the stored slice itself (same backing-array id,
heap allocation counter unchanged), because `len + 0 <= cap` always
holds.  (No mutation occurs either, so the main frame property is
unaffected.) -/
theorem setDefaultReqOpts_counterexample :
    (goAppend heapC9 sliceC9 []).2 = sliceC9 ∧
    (goAppend heapC9 sliceC9 []).1.next = heapC9.next ∧
    sliceC9.arr ≠ heapC9.next := by decide

/-- Witness for C9: a call with one per-call option gets a fresh
backing array, and the stored default `[5]` is intact afterwards. -/
theorem setDefaultReqOpts_frame_witness :
    (goAppend heapC9 sliceC9 [9]).2.arr = heapC9.next ∧
    readSlice (doCallAppend heapC9 sliceC9 [9]) sliceC9 = [5] := by
  constructor
  · exact setDefaultReqOpts_frame.1 heapC9 sliceC9 [9] rfl (by decide)
  · exact setDefaultReqOpts_frame.2 heap0 [5] [[9]]

end Httpclient
